import Mathlib

/-!
Verification of the post-parent conditional-display aperture
(`packages/metaboxes/conditional-display/aperture/post-parent.js`).

The module derives a `PositionState` (`post_ancestors`, `post_parent_id`,
`post_level`) for the post being edited, from two raw shapes:

* a flat `<select>` option list whose indentation is encoded in `level-N`
  classes (classic editor), walked backward through previous siblings;
* a flat list of `{id, parent}` records (block editor), walked through
  parent links recursively.

JavaScript machine behaviour is embedded shallowly: `parseInt(s, 10)`
becomes `parseInt10 : String → Option Int` (`none` models `NaN`),
JavaScript number truthiness on integers becomes `≠ 0`, an access on an
`undefined` option becomes `Except.error`, and the unbounded recursion of
`getAncestorsFromPostsList` is given an explicit fuel parameter
(`none` = the recursion exceeds the given depth).
-/

/-- The normalized position value produced by both adapters. -/
structure PositionState where
  post_ancestors : List Int
  post_parent_id : Int
  post_level : Nat
deriving DecidableEq, Repr

/-- The default state (`INITIAL_STATE` in the source). -/
def INITIAL_STATE : PositionState :=
  { post_ancestors := [], post_parent_id := 0, post_level := 1 }

/-- A block-editor entity record: `{id, parent}`. -/
structure RawRecord where
  id : Int
  parent : Int
deriving DecidableEq, Repr

/-- The resolved post-type object; only its `hierarchical` flag is read. -/
structure PostType where
  hierarchical : Bool
deriving DecidableEq, Repr

/-- `lodash.find( posts, [ 'id', parentId ] )`: first record whose `id`
matches. -/
def findParent (posts : List RawRecord) (parentId : Int) : Option RawRecord :=
  posts.find? (fun r => r.id == parentId)

/-- `getAncestorsFromPostsList( parentId, posts, ancestors )` with explicit
fuel; `none` means the recursion exceeds the fuel (the JS function has no
such bound and simply recurses).  `if (parent.parent)` is number truthiness,
i.e. `parent.parent ≠ 0`. -/
def getAncestorsFromPostsList : Nat → Int → List RawRecord → List Int → Option (List Int)
  | 0, _, _, _ => none
  | fuel + 1, parentId, posts, ancestors =>
    match findParent posts parentId with
    | none => some ancestors
    | some parent =>
      if parent.parent ≠ 0 then
        getAncestorsFromPostsList fuel parent.parent posts (parent.id :: ancestors)
      else
        some (parent.id :: ancestors)

/-- `get( postType, [ 'hierarchical' ], false )`. -/
def isHierarchicalOf : Option PostType → Bool
  | none => false
  | some t => t.hierarchical

/-- The Gutenberg `map` callback: gate on a parseable parent id
(`parentAttr = none` models `parseInt` returning `NaN`) and a hierarchical
post type, then run the record-list extraction (`items = none` models
`getEntityRecords` returning `null`, replaced by `[]` via `|| []`). -/
def gutenbergMap (parentAttr : Option Int) (postType : Option PostType)
    (items : Option (List RawRecord)) (fuel : Nat) : Option PositionState :=
  match parentAttr with
  | none => some INITIAL_STATE
  | some parentId =>
    if ! isHierarchicalOf postType then
      some INITIAL_STATE
    else
      let posts := items.getD []
      (getAncestorsFromPostsList fuel parentId posts []).map
        (fun ancestors =>
          { post_ancestors := ancestors
            post_parent_id := parentId
            post_level := ancestors.length + 1 })

/-- One step of the parent walk: `a` is the parent id the recursion moves to
from id `b` (a record with id `b` is found and has a non-zero parent). -/
def postStep (posts : List RawRecord) (a b : Int) : Prop :=
  ∃ r, findParent posts b = some r ∧ r.parent ≠ 0 ∧ a = r.parent

/-- Accumulate the digit characters of a decimal numeral. -/
def digitsToNat (ds : List Char) : Nat :=
  ds.foldl (fun a c => a * 10 + (c.toNat - 48)) 0

/-- The maximal leading digit run of a character list, `none` when empty. -/
def digitRun (cs : List Char) : Option Nat :=
  let ds := cs.takeWhile Char.isDigit
  if ds = [] then none else some (digitsToNat ds)

/-- `parseInt( s, 10 )`: skip leading whitespace, optional sign, then the
longest digit run; `none` models `NaN`. -/
def parseInt10 (s : String) : Option Int :=
  let cs := s.data.dropWhile (fun c => c == ' ' || c == '\t' || c == '\n' || c == '\r')
  match cs with
  | '-' :: rest => (digitRun rest).map (fun n => -(n : Int))
  | '+' :: rest => (digitRun rest).map (fun n => (n : Int))
  | rest => (digitRun rest).map (fun n => (n : Int))

/-- An `<option>` element as the adapter reads it: its `value` attribute and
its `className` (`""` when no class is set, as in the DOM). -/
structure OptRec where
  value : String
  className : String
deriving DecidableEq, Repr

/-- The match `className.match( /^level-(\d+)/ )`, reduced to its captured
group: the digit run immediately following a leading `level-`. -/
def classDepth (c : String) : Option Nat :=
  let cs := c.data
  if cs.take 6 = ['l', 'e', 'v', 'e', 'l', '-'] then
    digitRun (cs.drop 6)
  else
    none

/-- `getParentIdFromOption`: `parseInt` of the option value, `0` on `NaN`. -/
def getParentIdFromOption (o : OptRec) : Int :=
  (parseInt10 o.value).getD 0

/-- `getLevelFromOption`: `0` unless the class name is truthy and matches
`^level-(\d+)`, in which case the captured depth plus one. -/
def getLevelFromOption (o : OptRec) : Nat :=
  if o.className = "" then 0
  else
    match classDepth o.className with
    | some d => d + 1
    | none => 0

/-- `if (id > 0) ancestors.unshift(id)` after `parseInt` (`none` = `NaN`,
and `NaN > 0` is false). -/
def pushId : Option Int → List Int → List Int
  | some i, ancestors => if 0 < i then i :: ancestors else ancestors
  | none, ancestors => ancestors

/-- The `while (level > 0 && previousOption)` loop of
`getAncestorsFromOption`; the backward sibling chain is the list (head =
current candidate, tail = its predecessors). -/
def ancLoop : Nat → List OptRec → List Int → List Int
  | 0, _, ancestors => ancestors
  | _ + 1, [], ancestors => ancestors
  | level + 1, o :: rest, ancestors =>
    if getLevelFromOption o ≠ level + 1 then
      ancLoop (level + 1) rest ancestors
    else
      ancLoop level rest (pushId (parseInt10 o.value) ancestors)

/-- `getAncestorsFromOption( option )`: start the walk at the selected
option itself (`previousOption = option`), with its preceding siblings
given nearest-first. -/
def getAncestorsFromOption (o : OptRec) (prevs : List OptRec) : List Int :=
  ancLoop (getLevelFromOption o) (o :: prevs) []

/-- A `<select>` node: its options in document order and `selectedIndex`
(`-1` when nothing is selected). -/
structure SelectNode where
  options : List OptRec
  selectedIndex : Int
deriving DecidableEq, Repr

/-- `node.options[ node.selectedIndex ]` together with the selected
option's backward sibling chain; `none` models the access yielding
`undefined`. -/
def selectedWithPrevs (node : SelectNode) : Option (OptRec × List OptRec) :=
  if node.selectedIndex < 0 then none
  else
    let i := node.selectedIndex.toNat
    match node.options.get? i with
    | none => none
    | some o => some (o, (node.options.take i).reverse)

/-- `getParentIdAncestorsAndLevelFromSelect( node )`; when `selectedIndex`
designates no option, the JS code dereferences `undefined` and throws a
`TypeError`, modelled as `Except.error`. -/
def getParentIdAncestorsAndLevelFromSelect (node : SelectNode) : Except String PositionState :=
  match selectedWithPrevs node with
  | none => Except.error "TypeError: cannot read className of undefined"
  | some (o, prevs) =>
    Except.ok
      { post_ancestors := getAncestorsFromOption o prevs
        post_parent_id := getParentIdFromOption o
        post_level := getLevelFromOption o + 1 }

/-- Whether the derivation threw. -/
def derivationThrew (r : Except String PositionState) : Bool :=
  match r with
  | Except.error _ => true
  | Except.ok _ => false

instance : DecidableEq (Except String PositionState) := fun x y =>
  match x, y with
  | Except.ok a, Except.ok b =>
    if h : a = b then isTrue (h ▸ rfl) else isFalse (fun hc => h (Except.ok.inj hc))
  | Except.error a, Except.error b =>
    if h : a = b then isTrue (h ▸ rfl) else isFalse (fun hc => h (Except.error.inj hc))
  | Except.ok _, Except.error _ => isFalse (fun hc => Except.noConfusion hc)
  | Except.error _, Except.ok _ => isFalse (fun hc => Except.noConfusion hc)

/-- The record list of the Record-List scenario. -/
def postsC1 : List RawRecord := [⟨5, 0⟩, ⟨9, 5⟩, ⟨20, 9⟩]

/-- A record list whose parent links form a cycle. -/
def postsCyc : List RawRecord := [⟨1, 2⟩, ⟨2, 1⟩]

/-- The option list of the Flat-List scenario, id 3 selected. -/
def nodeC3 : SelectNode := ⟨[⟨"1", "level-0"⟩, ⟨"2", "level-1"⟩, ⟨"3", "level-1"⟩], 2⟩

lemma getLevelFromOption_eq_classDepth (o : OptRec) :
    getLevelFromOption o =
      match classDepth o.className with
      | some d => d + 1
      | none => 0 := by
  unfold getLevelFromOption
  by_cases h : o.className = ""
  · rw [if_pos h, h]
    decide
  · rw [if_neg h]

lemma ancLoop_length_le : ∀ (chain : List OptRec) (level : Nat) (anc : List Int),
    (ancLoop level chain anc).length ≤ level + anc.length := by
  intro chain
  induction chain with
  | nil =>
    intro level anc
    cases level with
    | zero => simp only [ancLoop]; omega
    | succ l => simp only [ancLoop]; omega
  | cons o rest ih =>
    intro level anc
    cases level with
    | zero => simp only [ancLoop]; omega
    | succ l =>
      simp only [ancLoop]
      by_cases hne : getLevelFromOption o ≠ l + 1
      · rw [if_pos hne]
        exact ih (l + 1) anc
      · rw [if_neg hne]
        have h1 : (pushId (parseInt10 o.value) anc).length ≤ anc.length + 1 := by
          cases parseInt10 o.value with
          | none => simp [pushId]
          | some i =>
            by_cases hi : 0 < i
            · simp [pushId, hi]
            · simp [pushId, hi]
        have h2 := ih l (pushId (parseInt10 o.value) anc)
        omega

/-- C1 counterexample: on records `[(5,0), (9,5), (20,9)]` with parent id
`20`, the emitted state is not `(ancestors [5, 9], parent 20, level 3)`. -/
theorem c1_recordlist_scenario_cex :
    gutenbergMap (some 20) (some ⟨true⟩) (some postsC1) 10 ≠
      some ⟨[5, 9], 20, 3⟩ := by decide

/-- C1 (amended): on records `[(5,0), (9,5), (20,9)]` with parent id `20`,
the Record-List adapter emits ancestors `[5, 9, 20]` (the immediate parent
included last), parent id `20` and level `4`. -/
theorem c1_recordlist_scenario :
    gutenbergMap (some 20) (some ⟨true⟩) (some postsC1) 10 =
      some ⟨[5, 9, 20], 20, 4⟩ := by decide

/-- C2 counterexample: an option classed `level-0` (depth `0`) yields
`post_level = 2`, not `0 + 1`. -/
theorem c2_level_from_class_cex :
    getParentIdAncestorsAndLevelFromSelect ⟨[⟨"7", "level-0"⟩], 0⟩ =
      Except.ok ⟨[7], 7, 2⟩ ∧ (2 : Nat) ≠ 0 + 1 := by decide

/-- C2 (amended): for a selected option whose class encodes depth `d`, the
Flat-List adapter returns `post_level = d + 2`; with an absent or
non-matching class it returns `post_level = 1`. -/
theorem c2_level_from_class (node : SelectNode) (o : OptRec) (prevs : List OptRec)
    (h : selectedWithPrevs node = some (o, prevs)) :
    ∃ s, getParentIdAncestorsAndLevelFromSelect node = Except.ok s ∧
      s.post_level =
        (match classDepth o.className with
        | some d => d + 2
        | none => 1) := by
  refine ⟨⟨getAncestorsFromOption o prevs, getParentIdFromOption o,
    getLevelFromOption o + 1⟩, ?_, ?_⟩
  · unfold getParentIdAncestorsAndLevelFromSelect
    rw [h]
  · show getLevelFromOption o + 1 = _
    rw [getLevelFromOption_eq_classDepth]
    cases classDepth o.className <;> rfl

/-- Witness for C2 at the depth-0-classed option. -/
theorem c2_level_from_class_witness :
    selectedWithPrevs ⟨[⟨"7", "level-0"⟩], 0⟩ = some (⟨"7", "level-0"⟩, []) ∧
    ∃ s, getParentIdAncestorsAndLevelFromSelect ⟨[⟨"7", "level-0"⟩], 0⟩ = Except.ok s ∧
      s.post_level =
        (match classDepth "level-0" with
        | some d => d + 2
        | none => 1) :=
  ⟨by decide, c2_level_from_class ⟨[⟨"7", "level-0"⟩], 0⟩ ⟨"7", "level-0"⟩ [] (by decide)⟩

/-- C3 counterexample: selecting id 3 in the scenario list does not give
`(ancestors [1], parent 3, level 2)`. -/
theorem c3_flatlist_scenario_cex :
    getParentIdAncestorsAndLevelFromSelect nodeC3 ≠ Except.ok ⟨[1], 3, 2⟩ := by decide

/-- C3 (amended): selecting id 3 in the scenario list gives ancestors
`[1, 3]` (the selected parent included last), parent id `3`, level `3`. -/
theorem c3_flatlist_scenario :
    getParentIdAncestorsAndLevelFromSelect nodeC3 = Except.ok ⟨[1, 3], 3, 3⟩ := by decide

/-- C4 counterexample: a depth-0-classed option already contributes itself,
so the ancestors length (1) exceeds `d = 0`. -/
theorem c4_ancestors_bound_cex :
    ¬ (getAncestorsFromOption ⟨"7", "level-0"⟩ []).length ≤ 0 := by decide

/-- C4 (amended): for a selected option whose class encodes depth `d`, the
ancestors sequence (which may include the selected option itself) has
length at most `d + 1`. -/
theorem c4_ancestors_bound (o : OptRec) (prevs : List OptRec) (d : Nat)
    (h : classDepth o.className = some d) :
    (getAncestorsFromOption o prevs).length ≤ d + 1 := by
  have hl : getLevelFromOption o = d + 1 := by
    rw [getLevelFromOption_eq_classDepth, h]
  have hle := ancLoop_length_le (o :: prevs) (getLevelFromOption o) []
  unfold getAncestorsFromOption
  rw [hl] at hle ⊢
  simpa using hle

/-- Witness for C4 at the depth-0-classed option. -/
theorem c4_ancestors_bound_witness :
    classDepth (OptRec.className ⟨"7", "level-0"⟩) = some 0 ∧
    (getAncestorsFromOption ⟨"7", "level-0"⟩ []).length ≤ 0 + 1 :=
  ⟨by decide, c4_ancestors_bound _ [] 0 (by decide)⟩

/-- C5: every state emitted by the Gutenberg pipeline after the validity
gate has passed (parent id parses, type hierarchical) satisfies
`post_level = post_ancestors.length + 1`. -/
theorem c5_level_is_ancestors_length_succ (parentAttr : Option Int)
    (postType : Option PostType) (items : Option (List RawRecord)) (fuel : Nat)
    (pid : Int) (s : PositionState)
    (hpa : parentAttr = some pid)
    (hh : isHierarchicalOf postType = true)
    (hres : gutenbergMap parentAttr postType items fuel = some s) :
    s.post_level = s.post_ancestors.length + 1 := by
  subst hpa
  simp only [gutenbergMap, hh, Bool.not_true, Bool.false_eq_true, if_false] at hres
  cases hanc : getAncestorsFromPostsList fuel pid (items.getD []) [] with
  | none => rw [hanc] at hres; exact absurd hres (by simp)
  | some ancestors =>
    rw [hanc] at hres
    rw [Option.map_some'] at hres
    have hs := Option.some.inj hres
    rw [← hs]

/-- Witness for C5 at the Record-List scenario input. -/
theorem c5_level_is_ancestors_length_succ_witness :
    isHierarchicalOf (some ⟨true⟩) = true ∧
    gutenbergMap (some 20) (some ⟨true⟩) (some postsC1) 10 = some ⟨[5, 9, 20], 20, 4⟩ ∧
    (⟨[5, 9, 20], 20, 4⟩ : PositionState).post_level =
      (⟨[5, 9, 20], 20, 4⟩ : PositionState).post_ancestors.length + 1 :=
  ⟨by decide, by decide,
    c5_level_is_ancestors_length_succ (some 20) (some ⟨true⟩) (some postsC1) 10 20
      ⟨[5, 9, 20], 20, 4⟩ rfl (by decide) (by decide)⟩

/-- C7 counterexample: when `selectedIndex` designates no option, the
derivation throws (dereferences `undefined`) instead of degrading. -/
theorem c7_degradation_cex :
    derivationThrew (getParentIdAncestorsAndLevelFromSelect ⟨[], 0⟩) = true := by decide

/-- C7 (amended): whenever the selected option exists, the Flat-List
derivation throws no exception, an unparseable value degrades the parent id
to `0`, and an absent or malformed indentation class degrades to the empty
ancestor sequence and level `1`; only a `selectedIndex` designating no
option throws. -/
theorem c7_degradation (node : SelectNode) (o : OptRec) (prevs : List OptRec)
    (h : selectedWithPrevs node = some (o, prevs)) :
    ∃ s, getParentIdAncestorsAndLevelFromSelect node = Except.ok s ∧
      (parseInt10 o.value = none → s.post_parent_id = 0) ∧
      (classDepth o.className = none → s.post_ancestors = [] ∧ s.post_level = 1) := by
  refine ⟨⟨getAncestorsFromOption o prevs, getParentIdFromOption o,
    getLevelFromOption o + 1⟩, ?_, ?_, ?_⟩
  · unfold getParentIdAncestorsAndLevelFromSelect
    rw [h]
  · intro hp
    show (parseInt10 o.value).getD 0 = 0
    rw [hp]
    rfl
  · intro hc
    have hl : getLevelFromOption o = 0 := by
      rw [getLevelFromOption_eq_classDepth, hc]
    constructor
    · show getAncestorsFromOption o prevs = []
      unfold getAncestorsFromOption
      rw [hl]
      rfl
    · show getLevelFromOption o + 1 = 1
      rw [hl]

/-- Witness for C7 at an option with unparseable value and malformed class. -/
theorem c7_degradation_witness :
    selectedWithPrevs ⟨[⟨"abc", "garbage"⟩], 0⟩ = some (⟨"abc", "garbage"⟩, []) ∧
    ∃ s, getParentIdAncestorsAndLevelFromSelect ⟨[⟨"abc", "garbage"⟩], 0⟩ = Except.ok s ∧
      (parseInt10 "abc" = none → s.post_parent_id = 0) ∧
      (classDepth "garbage" = none → s.post_ancestors = [] ∧ s.post_level = 1) :=
  ⟨by decide, c7_degradation ⟨[⟨"abc", "garbage"⟩], 0⟩ ⟨"abc", "garbage"⟩ [] (by decide)⟩

/-- C8: when the parsed parent id is `NaN` or the post type is not
hierarchical, the Gutenberg pipeline emits exactly `INITIAL_STATE`, at
every fuel (in particular fuel `0`: the ancestor extraction is never
entered). -/
theorem c8_validity_gate (parentAttr : Option Int) (postType : Option PostType)
    (items : Option (List RawRecord)) (fuel : Nat)
    (h : parentAttr = none ∨ isHierarchicalOf postType = false) :
    gutenbergMap parentAttr postType items fuel = some INITIAL_STATE := by
  cases h with
  | inl hpa => rw [hpa]; rfl
  | inr hh =>
    cases parentAttr with
    | none => rfl
    | some pid =>
      unfold gutenbergMap
      rw [hh]
      rfl

/-- Witness for C8: a non-hierarchical type bypasses the adapter even with
fuel 0 and a non-trivial parent id. -/
theorem c8_validity_gate_witness :
    (some (42 : Int) = none ∨ isHierarchicalOf (some ⟨false⟩) = false) ∧
    gutenbergMap (some 42) (some ⟨false⟩) (some postsC1) 0 = some INITIAL_STATE :=
  ⟨Or.inr (by decide),
    c8_validity_gate (some 42) (some ⟨false⟩) (some postsC1) 0 (Or.inr (by decide))⟩

/-- C9 counterexample: an option whose value parses to `-5` (not a positive
integer) yields parent id `-5`, not `0`. -/
theorem c9_parent_id_cex :
    getParentIdFromOption ⟨"-5", ""⟩ = -5 ∧ ((-5 : Int) ≠ 0) := by decide

/-- C9 (amended): the Flat-List adapter's returned parent id is the parsed
integer value of the selected option whenever `parseInt` succeeds (zero and
negative values included), and `0` exactly when parsing yields `NaN`. -/
theorem c9_parent_id_from_value (node : SelectNode) (o : OptRec) (prevs : List OptRec)
    (h : selectedWithPrevs node = some (o, prevs)) :
    ∃ s, getParentIdAncestorsAndLevelFromSelect node = Except.ok s ∧
      s.post_parent_id = (parseInt10 o.value).getD 0 := by
  refine ⟨⟨getAncestorsFromOption o prevs, getParentIdFromOption o,
    getLevelFromOption o + 1⟩, ?_, rfl⟩
  unfold getParentIdAncestorsAndLevelFromSelect
  rw [h]

/-- Witness for C9 at an option with a negative value. -/
theorem c9_parent_id_from_value_witness :
    selectedWithPrevs ⟨[⟨"-5", ""⟩], 0⟩ = some (⟨"-5", ""⟩, []) ∧
    ∃ s, getParentIdAncestorsAndLevelFromSelect ⟨[⟨"-5", ""⟩], 0⟩ = Except.ok s ∧
      s.post_parent_id = (parseInt10 "-5").getD 0 :=
  ⟨by decide, c9_parent_id_from_value ⟨[⟨"-5", ""⟩], 0⟩ ⟨"-5", ""⟩ [] (by decide)⟩

lemma postsCyc_no_fuel : ∀ (fuel : Nat) (anc : List Int),
    getAncestorsFromPostsList fuel 1 postsCyc anc = none ∧
    getAncestorsFromPostsList fuel 2 postsCyc anc = none := by
  intro fuel
  induction fuel with
  | zero => intro anc; exact ⟨rfl, rfl⟩
  | succ n ih =>
    intro anc
    constructor
    · have h1 : findParent postsCyc 1 = some ⟨1, 2⟩ := rfl
      simp only [getAncestorsFromPostsList, h1]
      rw [if_pos (by decide)]
      exact (ih (1 :: anc)).2
    · have h2 : findParent postsCyc 2 = some ⟨2, 1⟩ := rfl
      simp only [getAncestorsFromPostsList, h2]
      rw [if_pos (by decide)]
      exact (ih (2 :: anc)).1

lemma terminatesOfAcc (posts : List RawRecord) (pid : Int)
    (h : Acc (postStep posts) pid) :
    ∀ anc, ∃ fuel res, getAncestorsFromPostsList fuel pid posts anc = some res := by
  induction h with
  | intro x hacc ih =>
    intro anc
    cases hfind : findParent posts x with
    | none =>
      exact ⟨1, anc, by simp [getAncestorsFromPostsList, hfind]⟩
    | some r =>
      by_cases hp : r.parent = 0
      · exact ⟨1, r.id :: anc, by simp [getAncestorsFromPostsList, hfind, hp]⟩
      · obtain ⟨fuel, res, hr⟩ := ih r.parent ⟨r, hfind, hp, rfl⟩ (r.id :: anc)
        exact ⟨fuel + 1, res, by simp [getAncestorsFromPostsList, hfind, hp, hr]⟩

/-- C6 counterexample: on the cyclic record list `[(1,2), (2,1)]` with
parent id `1`, no recursion depth suffices — the JS recursion never
terminates. -/
theorem c6_termination_cex :
    ¬ ∃ fuel res, getAncestorsFromPostsList fuel 1 postsCyc [] = some res := by
  rintro ⟨fuel, res, h⟩
  rw [(postsCyc_no_fuel fuel []).1] at h
  exact Option.noConfusion h

/-- C6 (amended): the recursive ancestor extraction terminates for every
parent id and record list whose parent-link step relation is well-founded
at that id (every acyclic parent chain); it recurses forever on a cyclic
chain. -/
theorem c6_terminates_of_acc (posts : List RawRecord) (pid : Int)
    (h : Acc (postStep posts) pid) :
    ∃ fuel res, getAncestorsFromPostsList fuel pid posts [] = some res :=
  terminatesOfAcc posts pid h []

lemma accPostsC1_5 : Acc (postStep postsC1) 5 := by
  constructor
  rintro y ⟨r, hf, hp, hy⟩
  have he : findParent postsC1 5 = some ⟨5, 0⟩ := rfl
  rw [he] at hf
  have hr := Option.some.inj hf
  rw [← hr] at hp
  exact absurd rfl hp

lemma accPostsC1_9 : Acc (postStep postsC1) 9 := by
  constructor
  rintro y ⟨r, hf, hp, hy⟩
  have he : findParent postsC1 9 = some ⟨9, 5⟩ := rfl
  rw [he] at hf
  have hr := Option.some.inj hf
  rw [hy, ← hr]
  exact accPostsC1_5

lemma accPostsC1_20 : Acc (postStep postsC1) 20 := by
  constructor
  rintro y ⟨r, hf, hp, hy⟩
  have he : findParent postsC1 20 = some ⟨20, 9⟩ := rfl
  rw [he] at hf
  have hr := Option.some.inj hf
  rw [hy, ← hr]
  exact accPostsC1_9

/-- Witness for C6 at the acyclic scenario record list. -/
theorem c6_terminates_of_acc_witness :
    Acc (postStep postsC1) 20 ∧
    ∃ fuel res, getAncestorsFromPostsList fuel 20 postsC1 [] = some res :=
  ⟨accPostsC1_20, c6_terminates_of_acc postsC1 20 accPostsC1_20⟩

lemma getAncestors_extends : ∀ (fuel : Nat) (pid : Int) (posts : List RawRecord)
    (anc res : List Int),
    getAncestorsFromPostsList fuel pid posts anc = some res →
    ∃ pre, res = pre ++ anc := by
  intro fuel
  induction fuel with
  | zero =>
    intro pid posts anc res h
    exact Option.noConfusion h
  | succ n ih =>
    intro pid posts anc res h
    cases hfind : findParent posts pid with
    | none =>
      simp only [getAncestorsFromPostsList, hfind] at h
      exact ⟨[], by rw [List.nil_append]; exact (Option.some.inj h).symm⟩
    | some r =>
      by_cases hp : r.parent = 0
      · simp only [getAncestorsFromPostsList, hfind] at h
        rw [if_neg (fun hne => hne hp)] at h
        exact ⟨[r.id], by rw [← Option.some.inj h]; rfl⟩
      · simp only [getAncestorsFromPostsList, hfind] at h
        rw [if_pos hp] at h
        obtain ⟨pre, hpre⟩ := ih r.parent posts (r.id :: anc) res h
        exact ⟨pre ++ [r.id], by rw [hpre, List.append_assoc]; rfl⟩

lemma findParent_of_mem (p : Int) : ∀ posts : List RawRecord,
    (∃ r ∈ posts, r.id = p) → ∃ r0, findParent posts p = some r0 ∧ r0.id = p := by
  intro posts
  induction posts with
  | nil =>
    rintro ⟨r, hr, _⟩
    cases hr
  | cons a rest ih =>
    rintro ⟨r, hr, hid⟩
    by_cases hb : a.id = p
    · refine ⟨a, ?_, hb⟩
      simp [findParent, List.find?, hb]
    · have hrest : r ∈ rest := by
        cases List.mem_cons.mp hr with
        | inl he => exact absurd (he ▸ hid) hb
        | inr hm => exact hm
      obtain ⟨r0, h0, hid0⟩ := ih ⟨r, hrest, hid⟩
      refine ⟨r0, ?_, hid0⟩
      rw [findParent] at h0 ⊢
      rw [List.find?]
      have hbeq : (a.id == p) = false := beq_eq_false_iff_ne.mpr hb
      rw [hbeq]
      exact h0

/-- C10: for every parent id `p` with a well-founded (acyclic) parent walk
and a matching record in the list, the Record-List extraction returns a
non-empty ancestors sequence whose last element is `p`: the emitted
`post_ancestors` ends with `post_parent_id`. -/
theorem c10_ancestors_end_with_parent (posts : List RawRecord) (p : Int)
    (hacc : Acc (postStep posts) p) (hmem : ∃ r ∈ posts, r.id = p) :
    ∃ fuel ancestors, getAncestorsFromPostsList fuel p posts [] = some ancestors ∧
      ancestors ≠ [] ∧ ancestors.getLast? = some p := by
  obtain ⟨fuel, res, hres⟩ := terminatesOfAcc posts p hacc []
  obtain ⟨r0, h0, hid0⟩ := findParent_of_mem p posts hmem
  have hkeep := hres
  have hlast : res ≠ [] ∧ res.getLast? = some p := by
    cases fuel with
    | zero => exact Option.noConfusion hres
    | succ n =>
      simp only [getAncestorsFromPostsList, h0] at hres
      by_cases hp : r0.parent = 0
      · rw [if_neg (fun hne => hne hp)] at hres
        rw [← Option.some.inj hres]
        exact ⟨by simp, by rw [hid0]; rfl⟩
      · rw [if_pos hp] at hres
        obtain ⟨pre, hpre⟩ := getAncestors_extends n r0.parent posts [r0.id] res hres
        subst hpre
        refine ⟨by simp, ?_⟩
        rw [List.getLast?_concat, hid0]
  exact ⟨fuel, res, hkeep, hlast.1, hlast.2⟩

/-- Witness for C10 at the acyclic scenario record list. -/
theorem c10_ancestors_end_with_parent_witness :
    (∃ r ∈ postsC1, r.id = 20) ∧
    ∃ fuel ancestors, getAncestorsFromPostsList fuel 20 postsC1 [] = some ancestors ∧
      ancestors ≠ [] ∧ ancestors.getLast? = some 20 :=
  ⟨⟨⟨20, 9⟩, by decide, rfl⟩,
    c10_ancestors_end_with_parent postsC1 20 accPostsC1_20 ⟨⟨20, 9⟩, by decide, rfl⟩⟩
